import Mathlib

/-!
Verification of the geometric core of `reactiondataextractor`.

This file gives a shallow embedding of the spatial algebra
(`models/segments.py`), the role-probing engine and the scheme graph
(`models/output.py`), and settles the frozen claims about them.

Modelling conventions used throughout:

* Coordinates are rationals (`ℚ`).  The Python code mixes ints and floats;
  every operation the claims touch is exact field arithmetic, comparisons
  and floors, all of which ℚ models exactly.
* Euclidean distances.  The source computes `np.hypot(w, h) = sqrt (w² + h²)`.
  We embed the *square* of every such distance (`w² + h²`), keeping each
  definition computable.  Squaring is strictly monotone on nonnegative
  reals and every distance the code produces is nonnegative, so all the
  operations the code performs on these values — comparison with `0`,
  equality tests, `<`-comparisons and argmins — are preserved verbatim.
  Functions embedded this way carry the suffix `_sq`.
* Python exceptions are modelled with `Except PyErr`; an attribute that is
  read but never assigned is modelled as a field of type `Option _` holding
  `none` (reading it yields `AttributeError`).
-/

namespace RDE

/-- Python exceptions relevant to the embedded code paths. -/
inductive PyErr where
  | attributeError
  | valueError
  | keyError
  | typeError
  | indexError
  | zeroDivisionError
  | recursionError
deriving DecidableEq, Repr

/-- Python's `min` over a list of comparable values: raises `ValueError` on an
empty sequence (`min() arg is an empty sequence`). -/
def pymin (l : List ℚ) : Except PyErr ℚ :=
  match l with
  | [] => .error .valueError
  | x :: xs => .ok (xs.foldl min x)

/-- Total companion of `pymin` for stating theorems about nonempty lists. -/
def pyminD (l : List ℚ) : ℚ :=
  match l with
  | [] => 0
  | x :: xs => xs.foldl min x

lemma pymin_eq_ok {l : List ℚ} (h : l ≠ []) : pymin l = .ok (pyminD l) := by
  cases l with
  | nil => exact absurd rfl h
  | cons x xs => rfl

lemma pyminD_le (l : List ℚ) (x : ℚ) (hx : x ∈ l) : pyminD l ≤ x := by
  cases l with
  | nil => cases hx
  | cons a as =>
    simp only [pyminD]
    rcases List.mem_cons.1 hx with rfl | hmem
    · exact List.foldl_min_le_left as x
    · exact List.foldl_min_le_of_mem as a x hmem
where
  /-- `foldl min` is bounded by its initial accumulator. -/
  List.foldl_min_le_left : (as : List ℚ) → (x : ℚ) → as.foldl min x ≤ x
    | [], _ => le_refl _
    | a :: as, x => le_trans (List.foldl_min_le_left as (min x a)) (min_le_left x a)
  /-- `foldl min` is bounded by every list element. -/
  List.foldl_min_le_of_mem : (as : List ℚ) → (x : ℚ) → (a : ℚ) → a ∈ as →
      as.foldl min x ≤ a
    | b :: bs, x, a, h => by
      rcases List.mem_cons.1 h with rfl | hmem
      · exact le_trans (List.foldl_min_le_left bs (min x a)) (min_le_right x a)
      · exact List.foldl_min_le_of_mem bs (min x b) a hmem

lemma pyminD_mem (l : List ℚ) (h : l ≠ []) : pyminD l ∈ l := by
  cases l with
  | nil => exact absurd rfl h
  | cons a as =>
    simp only [pyminD]
    exact foldl_min_mem as a
where
  foldl_min_mem : (as : List ℚ) → (x : ℚ) → as.foldl min x ∈ x :: as
    | [], x => List.mem_singleton.2 rfl
    | b :: bs, x => by
      simp only [List.foldl_cons]
      have := foldl_min_mem bs (min x b)
      rcases List.mem_cons.1 this with heq | hmem
      · rcases le_total x b with hle | hle
        · rw [heq, min_eq_left hle]; exact List.mem_cons_self _ _
        · rw [heq, min_eq_right hle]
          exact List.mem_cons_of_mem _ (List.mem_cons_self _ _)
      · exact List.mem_cons_of_mem _ (List.mem_cons_of_mem _ hmem)

/-! ## The spatial algebra: `Rect` (models/segments.py) -/

/-- Axis-aligned rectangle, `Rect` of `models/segments.py` (line 137).
Coordinates are stored in the order `(top, left, bottom, right)`, matching
`Rect.coords` and `Rect.__iter__`. -/
structure Rect where
  top : ℚ
  left : ℚ
  bottom : ℚ
  right : ℚ
deriving DecidableEq, Repr

namespace Rect

/-- `Rect.width` (segments.py:199). -/
def width (r : Rect) : ℚ := r.right - r.left

/-- `Rect.height` (segments.py:206). -/
def height (r : Rect) : ℚ := r.bottom - r.top

/-- The `top ≤ bottom ∧ left ≤ right` well-formedness invariant the spec's
data model states for every region. -/
def Valid (r : Rect) : Prop := r.top ≤ r.bottom ∧ r.left ≤ r.right

instance (r : Rect) : Decidable r.Valid := by unfold Valid; infer_instance

/-- `Rect.overlaps` (segments.py:311-325), the rectangle-vs-rectangle branch:
`min(self.right, other.right) > max(self.left, other.left) and
min(self.bottom, other.bottom) > max(self.top, other.top)`. -/
def overlaps (self other : Rect) : Bool :=
  decide (max self.left other.left < min self.right other.right) &&
    decide (max self.top other.top < min self.bottom other.bottom)

/-- Squared Euclidean distance between two `(x, y)` points.  The helper
`dist` inside `_edge_separation_rect` (segments.py:364-369) computes
`np.hypot(x2 - x1, y2 - y1)`; this is its square (see the header note on
the `_sq` convention). -/
def distSq (p1 p2 : ℚ × ℚ) : ℚ := (p2.1 - p1.1) ^ 2 + (p2.2 - p1.2) ^ 2

/-- `Rect._edge_separation_rect` (segments.py:359-394), squared.  The
branch structure (four diagonal corner cases, four axis gaps, overlap → 0)
is kept exactly; each returned distance is replaced by its square: the
corner branches return `distSq` of the same two corner points the source
passes to `dist`, and the gap branches return the square of the same gap. -/
def edge_separation_sq (self other : Rect) : ℚ :=
  let t1 := self.top; let l1 := self.left; let b1 := self.bottom; let r1 := self.right
  let t2 := other.top; let l2 := other.left; let b2 := other.bottom; let r2 := other.right
  if b2 < t1 ∧ r2 < l1 then distSq (l1, t1) (r2, b2)
  else if b1 < t2 ∧ r2 < l1 then distSq (l1, t1) (r2, t2)
  else if b1 < t2 ∧ r1 < l2 then distSq (r1, t1) (l2, t2)
  else if r1 < l2 ∧ b2 < t1 then distSq (r1, b1) (l2, b2)
  else if r2 < l1 then (l1 - r2) ^ 2
  else if r1 < l2 then (l2 - r1) ^ 2
  else if b1 < t2 then (t2 - b1) ^ 2
  else if b2 < t1 then (t1 - b2) ^ 2
  else 0

/-- `Rect.edge_separation` (segments.py:348-357) applied to a bare
two-element point `(x, y)` (the branch `x, y = other` followed by
`Rect([y, x, y, x])`): the point is turned into a degenerate rectangle and
compared with `_edge_separation_rect`.  Squared. -/
def edge_separation_pt_sq (self : Rect) (p : ℚ × ℚ) : ℚ :=
  edge_separation_sq self ⟨p.2, p.1, p.2, p.1⟩

/-- `Rect.find_relative_orientation` (segments.py:396-414): the four booleans
`(top, left, bottom, right)` describing where `self` sits relative to
`other_rect`. -/
def find_relative_orientation (self other : Rect) : Bool × Bool × Bool × Bool :=
  (decide (other.bottom < self.top), decide (other.right < self.left),
    decide (self.bottom < other.top), decide (self.right < other.left))

/-- `Rect.compute_iou` (segments.py:447-473).  The source unpacks
`xa, ya, wa, ha = self`, but iterating a `Rect` yields
`(top, left, bottom, right)`; the embedding keeps that correspondence
(`xa = top, ya = left, wa = bottom, ha = right`) exactly as executed.
Division of ints by zero raises `ZeroDivisionError` in Python. -/
def compute_iou (self other : Rect) : Except PyErr ℚ :=
  let xa := self.top; let ya := self.left; let wa := self.bottom; let ha := self.right
  let xb := other.top; let yb := other.left; let wb := other.bottom; let hb := other.right
  let x1_inter := max xa xb
  let y1_inter := max ya yb
  let x2_inter := min (xa + wa) (xb + wb)
  let y2_inter := min (ya + ha) (yb + hb)
  if x2_inter < x1_inter ∨ y2_inter < y1_inter then .ok 0
  else
    let area_a := wa * ha
    let area_b := wb * hb
    let w_inter := x2_inter - x1_inter
    let h_inter := y2_inter - y1_inter
    let area_intersection := w_inter * h_inter
    let denom := area_a + area_b - area_intersection
    if denom = 0 then .error .zeroDivisionError
    else .ok (area_intersection / denom)

/-- The four diagonal corner configurations of `_edge_separation_rect`:
the cases in which the source computes a corner-to-corner distance rather
than an axis-aligned gap. -/
def diagonal (self other : Rect) : Prop :=
  (other.bottom < self.top ∧ other.right < self.left) ∨
  (self.bottom < other.top ∧ other.right < self.left) ∨
  (self.bottom < other.top ∧ self.right < other.left) ∨
  (self.right < other.left ∧ other.bottom < self.top)

instance (a b : Rect) : Decidable (diagonal a b) := by unfold diagonal; infer_instance

lemma sep_eval_none (s o : Rect) (hl : ¬ o.right < s.left) (hr : ¬ s.right < o.left)
    (hb : ¬ s.bottom < o.top) (ht : ¬ o.bottom < s.top) : edge_separation_sq s o = 0 := by
  simp only [edge_separation_sq, distSq]
  split_ifs <;> first | rfl | tauto

lemma sep_eval_left (s o : Rect) (hl : o.right < s.left) (hr : ¬ s.right < o.left)
    (hb : ¬ s.bottom < o.top) (ht : ¬ o.bottom < s.top) :
    edge_separation_sq s o = (s.left - o.right) ^ 2 := by
  simp only [edge_separation_sq, distSq]
  split_ifs <;> first | rfl | tauto

lemma sep_eval_right (s o : Rect) (hr : s.right < o.left) (hl : ¬ o.right < s.left)
    (hb : ¬ s.bottom < o.top) (ht : ¬ o.bottom < s.top) :
    edge_separation_sq s o = (o.left - s.right) ^ 2 := by
  simp only [edge_separation_sq, distSq]
  split_ifs <;> first | rfl | tauto

lemma sep_eval_bottom (s o : Rect) (hb : s.bottom < o.top) (hl : ¬ o.right < s.left)
    (hr : ¬ s.right < o.left) (ht : ¬ o.bottom < s.top) :
    edge_separation_sq s o = (o.top - s.bottom) ^ 2 := by
  simp only [edge_separation_sq, distSq]
  split_ifs <;> first | rfl | tauto

lemma sep_eval_top (s o : Rect) (ht : o.bottom < s.top) (hl : ¬ o.right < s.left)
    (hr : ¬ s.right < o.left) (hb : ¬ s.bottom < o.top) :
    edge_separation_sq s o = (s.top - o.bottom) ^ 2 := by
  simp only [edge_separation_sq, distSq]
  split_ifs <;> first | rfl | tauto

/-- Strict bounding-box overlap forces the `else`-branch of
`_edge_separation_rect`, which returns 0. -/
lemma overlaps_imp_edge_separation_zero (A B : Rect) (h : overlaps A B = true) :
    edge_separation_sq A B = 0 := by
  simp only [overlaps, Bool.and_eq_true, decide_eq_true_eq, max_lt_iff, lt_min_iff] at h
  obtain ⟨⟨⟨haa, hab⟩, hba, hbb⟩, ⟨hta, htb⟩, htc, htd⟩ := h
  simp only [edge_separation_sq]
  split_ifs with c1 c2 c3 c4 c5 c6 c7 c8 <;> try rfl
  · exact absurd c1.1 (by linarith)
  · exact absurd c2.1 (by linarith)
  · exact absurd c3.1 (by linarith)
  · exact absurd c4.1 (by linarith)
  · exact absurd c5 (by linarith)
  · exact absurd c6 (by linarith)
  · exact absurd c7 (by linarith)
  · exact absurd c8 (by linarith)

/-- The edge separation is zero exactly when the *closed* boxes intersect:
a strictly positive value is returned in each of the eight separated
configurations, zero otherwise.  Touching boxes (for example sharing an
edge) therefore get separation 0 without overlapping. -/
lemma edge_separation_zero_iff (A B : Rect) :
    edge_separation_sq A B = 0 ↔
      (A.left ≤ B.right ∧ B.left ≤ A.right ∧ B.top ≤ A.bottom ∧ A.top ≤ B.bottom) := by
  simp only [edge_separation_sq, distSq]
  split_ifs with c1 c2 c3 c4 c5 c6 c7 c8
  · exact iff_of_false (by nlinarith [sq_nonneg (B.right - A.left), c1.1, c1.2])
      (fun hR => absurd c1.1 (not_lt.2 hR.2.2.2))
  · exact iff_of_false (by nlinarith [sq_nonneg (B.right - A.left), c2.1, c2.2])
      (fun hR => absurd c2.1 (not_lt.2 hR.2.2.1))
  · exact iff_of_false (by nlinarith [sq_nonneg (A.right - B.left), c3.1, c3.2])
      (fun hR => absurd c3.1 (not_lt.2 hR.2.2.1))
  · exact iff_of_false (by nlinarith [sq_nonneg (A.right - B.left), c4.1, c4.2])
      (fun hR => absurd c4.1 (not_lt.2 hR.2.1))
  · exact iff_of_false (by nlinarith [c5]) (fun hR => absurd c5 (not_lt.2 hR.1))
  · exact iff_of_false (by nlinarith [c6]) (fun hR => absurd c6 (not_lt.2 hR.2.1))
  · exact iff_of_false (by nlinarith [c7]) (fun hR => absurd c7 (not_lt.2 hR.2.2.1))
  · exact iff_of_false (by nlinarith [c8]) (fun hR => absurd c8 (not_lt.2 hR.2.2.2))
  · simp only [eq_self_iff_true, true_iff]
    exact ⟨le_of_not_lt c5, le_of_not_lt c6, le_of_not_lt c7, le_of_not_lt c8⟩

/-- Outside the diagonal corner configurations the edge separation is
symmetric: the axis-gap branches of the two call orders compute the same
gap, and the overlap branch returns 0 either way. -/
lemma edge_separation_symm_of_not_diag (A B : Rect) (hA : A.Valid) (hB : B.Valid)
    (h : ¬ diagonal A B) : edge_separation_sq A B = edge_separation_sq B A := by
  unfold diagonal at h
  push_neg at h
  obtain ⟨h1, h2, h3, h4⟩ := h
  obtain ⟨hA1, hA2⟩ := hA
  obtain ⟨hB1, hB2⟩ := hB
  by_cases hL : B.right < A.left
  · have hR : ¬ A.right < B.left := fun hc => by linarith
    have hT : ¬ B.bottom < A.top := fun hc => by have := h1 hc; linarith
    have hBo : ¬ A.bottom < B.top := fun hc => by have := h2 hc; linarith
    rw [sep_eval_left A B hL hR hBo hT, sep_eval_right B A hL hR hT hBo]
  · by_cases hR : A.right < B.left
    · have hT : ¬ B.bottom < A.top := fun hc => by have := h4 hR; linarith
      have hBo : ¬ A.bottom < B.top := fun hc => by have := h3 hc; linarith
      rw [sep_eval_right A B hR hL hBo hT, sep_eval_left B A hR hL hT hBo]
    · by_cases hBo : A.bottom < B.top
      · have hT : ¬ B.bottom < A.top := fun hc => by linarith
        rw [sep_eval_bottom A B hBo hL hR hT, sep_eval_top B A hBo hR hL hT]
      · by_cases hT : B.bottom < A.top
        · rw [sep_eval_top A B hT hL hR hBo, sep_eval_bottom B A hT hR hL hBo]
        · rw [sep_eval_none A B hL hR hBo hT, sep_eval_none B A hR hL hT hBo]

end Rect

open Rect

/-- C5 counterexample.  Two failures of the claim at concrete inputs.
First pair: the touching rectangles (0,0,10,10) and (0,10,10,20) (the first
ends exactly where the second begins) have edge separation 0 although
`overlaps` is false, refuting the "equals 0 only if overlaps" direction.
Second pair: (10,10,20,20) against the up-left rectangle (0,0,5,5) gives
squared separation 50 (true corner distance), but the swapped call gives
125, because `_edge_separation_rect` uses the wrong corner ordinate
(`t1` where `b1` is required, and vice versa) in three of the four corner
branches — so the separation is not symmetric. -/
theorem edge_separation_claim_counterexample :
    (edge_separation_sq ⟨0, 0, 10, 10⟩ ⟨0, 10, 10, 20⟩ = 0 ∧
      overlaps ⟨0, 0, 10, 10⟩ ⟨0, 10, 10, 20⟩ = false ∧
      Rect.Valid ⟨0, 0, 10, 10⟩ ∧ Rect.Valid ⟨0, 10, 10, 20⟩) ∧
    (edge_separation_sq ⟨10, 10, 20, 20⟩ ⟨0, 0, 5, 5⟩ = 50 ∧
      edge_separation_sq ⟨0, 0, 5, 5⟩ ⟨10, 10, 20, 20⟩ = 125 ∧
      Rect.Valid ⟨10, 10, 20, 20⟩ ∧ Rect.Valid ⟨0, 0, 5, 5⟩) := by
  refine ⟨⟨?_, by decide, by decide, by decide⟩, ?_, ?_, by decide, by decide⟩ <;>
    norm_num [edge_separation_sq, distSq]

/-- C5 (amended): for valid regions A and B, `edge_separation(A,B) = 0`
follows from `overlaps(A,B)`; it is 0 exactly when the closed boxes
intersect (so merely touching regions also give 0, and the converse of the
claim fails); and `edge_separation` is symmetric whenever the two regions
are not in one of the four diagonal corner configurations (in which the
source picks inconsistent corner points).  Distances are embedded squared
(see `edge_separation_sq`), which preserves zero-tests and equality. -/
theorem edge_separation_zero_and_symm (A B : Rect) (hA : A.Valid) (hB : B.Valid) :
    (overlaps A B = true → edge_separation_sq A B = 0) ∧
    (edge_separation_sq A B = 0 ↔
      A.left ≤ B.right ∧ B.left ≤ A.right ∧ B.top ≤ A.bottom ∧ A.top ≤ B.bottom) ∧
    (¬ diagonal A B → edge_separation_sq A B = edge_separation_sq B A) :=
  ⟨overlaps_imp_edge_separation_zero A B, edge_separation_zero_iff A B,
    edge_separation_symm_of_not_diag A B hA hB⟩

/-- C5 witness: the amended statement instantiated at the two strictly
overlapping valid rectangles (0,0,10,10) and (5,5,15,15). -/
theorem edge_separation_zero_and_symm_witness :
    (overlaps ⟨0, 0, 10, 10⟩ ⟨5, 5, 15, 15⟩ = true →
      edge_separation_sq ⟨0, 0, 10, 10⟩ ⟨5, 5, 15, 15⟩ = 0) ∧
    (edge_separation_sq ⟨0, 0, 10, 10⟩ ⟨5, 5, 15, 15⟩ = 0 ↔
      (0 : ℚ) ≤ 15 ∧ (5 : ℚ) ≤ 10 ∧ (5 : ℚ) ≤ 10 ∧ (0 : ℚ) ≤ 15) ∧
    (¬ diagonal ⟨0, 0, 10, 10⟩ ⟨5, 5, 15, 15⟩ →
      edge_separation_sq ⟨0, 0, 10, 10⟩ ⟨5, 5, 15, 15⟩ =
        edge_separation_sq ⟨5, 5, 15, 15⟩ ⟨0, 0, 10, 10⟩) :=
  edge_separation_zero_and_symm ⟨0, 0, 10, 10⟩ ⟨5, 5, 15, 15⟩ (by decide) (by decide)

/-- C6: the IoU claim fails because `compute_iou` unpacks the
`(top, left, bottom, right)` coordinate tuple as if it were in
`(x, y, width, height)` box format.  At the concrete non-overlapping pair
A = (5,0,10,10) and B = (11,0,21,10) (B lies strictly below A, so
`overlaps` is false and the edge separation is positive), `compute_iou`
returns 4/27 instead of 0. -/
theorem compute_iou_disjoint_nonzero_bug :
    overlaps ⟨5, 0, 10, 10⟩ ⟨11, 0, 21, 10⟩ = false ∧
    edge_separation_sq ⟨5, 0, 10, 10⟩ ⟨11, 0, 21, 10⟩ ≠ 0 ∧
    compute_iou ⟨5, 0, 10, 10⟩ ⟨11, 0, 21, 10⟩ = .ok (4 / 27) ∧ (4 / 27 : ℚ) ≠ 0 := by
  refine ⟨by decide, ?_, ?_, by norm_num⟩ <;>
    norm_num [compute_iou, edge_separation_sq, distSq]

/-- C10: for valid regions, the four booleans `(top, left, bottom, right)`
returned by `find_relative_orientation` never set `top` and `bottom`
simultaneously, nor `left` and `right` simultaneously. -/
theorem find_relative_orientation_exclusive (A B : Rect) (hA : A.Valid) (hB : B.Valid) :
    ¬((find_relative_orientation A B).1 = true ∧
        (find_relative_orientation A B).2.2.1 = true) ∧
    ¬((find_relative_orientation A B).2.1 = true ∧
        (find_relative_orientation A B).2.2.2 = true) := by
  obtain ⟨hA1, hA2⟩ := hA
  obtain ⟨hB1, hB2⟩ := hB
  simp only [find_relative_orientation, decide_eq_true_eq]
  constructor <;> rintro ⟨hx, hy⟩ <;> linarith

/-- C10 witness: the orientation exclusivity instantiated at the valid
rectangles (0,0,1,1) and (2,0,3,1). -/
theorem find_relative_orientation_exclusive_witness :
    ¬((find_relative_orientation ⟨0, 0, 1, 1⟩ ⟨2, 0, 3, 1⟩).1 = true ∧
        (find_relative_orientation ⟨0, 0, 1, 1⟩ ⟨2, 0, 3, 1⟩).2.2.1 = true) ∧
    ¬((find_relative_orientation ⟨0, 0, 1, 1⟩ ⟨2, 0, 3, 1⟩).2.1 = true ∧
        (find_relative_orientation ⟨0, 0, 1, 1⟩ ⟨2, 0, 3, 1⟩).2.2.2 = true) :=
  find_relative_orientation_exclusive ⟨0, 0, 1, 1⟩ ⟨2, 0, 3, 1⟩ (by decide) (by decide)

/-! ## The probing engine: `RoleProbe` (models/output.py) -/

/-- A probing segment given by its two endpoints, each an `(x, y)` pair.
In the source these are the `Line` objects built by `find_points_on_line`;
`_check_overlap` and `sufficient_overlap` consume only `segment.endpoints`. -/
structure Segment where
  p1 : ℚ × ℚ
  p2 : ℚ × ℚ
deriving DecidableEq, Repr

/-- `RoleProbe._check_overlap` (output.py:749-776), squared.  The overlap
between a probing segment and a panel is the diagonal length of the
intersection of the panel's box with the segment's bounding box
(endpoints read as the corners), and 0 when the intersection is empty.
The source returns `np.sqrt(height ** 2 + width ** 2)`; this embedding
returns `height ^ 2 + width ^ 2` (the `_sq` convention). -/
def check_overlap_sq (segment : Segment) (panel : Rect) : ℚ :=
  let t1 := panel.top; let l1 := panel.left; let b1 := panel.bottom; let r1 := panel.right
  let t2 := min segment.p1.2 segment.p2.2
  let b2 := max segment.p1.2 segment.p2.2
  let l2 := min segment.p1.1 segment.p2.1
  let r2 := max segment.p1.1 segment.p2.1
  let t := max t1 t2
  let b := min b1 b2
  let l := max l1 l2
  let r := min r1 r2
  let height := b - t
  let width := r - l
  if height < 0 ∨ width < 0 then 0 else height ^ 2 + width ^ 2

/-- Python's `list.index(True)` with the surrounding `try/except
ValueError` of `_perform_line_scan` folded in: the index of the first
`True`, or `none` when there is none (`arrow_overlap = None`). -/
def first_true_idx : List Bool → Option ℕ
  | [] => none
  | b :: bs => if b then some 0 else (first_true_idx bs).map (· + 1)

/-- One entry of the comprehension
`[any(self._check_overlap(l, a.panel) for a in other_arrows) for l in lines]`
(output.py:882): Python truthiness of the float returned by
`_check_overlap` makes this "overlaps some other arrow to any nonzero
extent". -/
def overlaps_other_arrow (other_arrows : List Rect) (l : Segment) : Bool :=
  other_arrows.any (fun a => decide (check_overlap_sq l a ≠ 0))

/-- The probe-segment truncation step of `RoleProbe._perform_line_scan`
(output.py:879-888): `lines = lines[:arrow_overlap]` is executed only when
`arrow_overlap is not None and arrow_overlap > 2`. -/
def truncate_at_arrow_overlap (lines : List Segment) (other_arrows : List Rect) :
    List Segment :=
  match first_true_idx (lines.map (overlaps_other_arrow other_arrows)) with
  | some arrow_overlap => if arrow_overlap > 2 then lines.take arrow_overlap else lines
  | none => lines

lemma first_true_idx_eq_some (l : List Bool) (i : ℕ) (hi : i < l.length)
    (ht : l.get ⟨i, hi⟩ = true)
    (hf : ∀ j (hj : j < i), l.get ⟨j, hj.trans hi⟩ = false) :
    first_true_idx l = some i := by
  induction l generalizing i with
  | nil => cases hi
  | cons b bs ih =>
    cases i with
    | zero =>
      simp only [List.get] at ht
      simp [first_true_idx, ht]
    | succ j =>
      have hb : b = false := hf 0 (Nat.succ_pos j)
      have hrec : first_true_idx bs = some j := by
        refine ih j (Nat.lt_of_succ_lt_succ hi) ?_ ?_
        · simpa using ht
        · intro k hk
          simpa using hf (k + 1) (Nat.succ_lt_succ hk)
      simp [first_true_idx, hb, hrec]

/-- C7 (amended): when the first probing segment that overlaps another
arrow's region (to any nonzero extent) has index `i`, the sequence is
truncated just before it if `i > 2`, i.e. if it is *not among the first
three* segments; when it is among the first three (index 0, 1 or 2) the
whole sequence is retained.  (The claim said "first two"; the source's
guard is `arrow_overlap > 2`, which also spares an overlap at index 2.) -/
theorem truncate_at_first_arrow_overlap_amended (lines : List Segment)
    (arrows : List Rect) (i : ℕ) (hi : i < lines.length)
    (hov : ∃ a ∈ arrows, check_overlap_sq (lines.get ⟨i, hi⟩) a ≠ 0)
    (hbefore : ∀ j (hj : j < i), ∀ a ∈ arrows,
      check_overlap_sq (lines.get ⟨j, hj.trans hi⟩) a = 0) :
    (2 < i → truncate_at_arrow_overlap lines arrows = lines.take i) ∧
    (i ≤ 2 → truncate_at_arrow_overlap lines arrows = lines) := by
  have hlen : i < (lines.map (overlaps_other_arrow arrows)).length := by
    simpa using hi
  have hidx : first_true_idx (lines.map (overlaps_other_arrow arrows)) = some i := by
    apply first_true_idx_eq_some _ i hlen
    · simp only [List.get_eq_getElem, List.getElem_map, overlaps_other_arrow,
        List.any_eq_true, decide_eq_true_eq]
      exact hov
    · intro j hj
      simp only [List.get_eq_getElem, List.getElem_map, overlaps_other_arrow,
        List.any_eq_false, decide_eq_true_eq, ne_eq, not_not]
      intro a ha
      exact hbefore j hj a ha
  constructor <;> intro h
  · simp [truncate_at_arrow_overlap, hidx, h]
  · simp [truncate_at_arrow_overlap, hidx, Nat.not_lt.2 h]

/-- Four probing segments: the third one (index 2) crosses the other
arrow's panel `scanArrow`, the rest lie far away from it. -/
def scanLinesHitThird : List Segment :=
  [⟨(20, 20), (21, 21)⟩, ⟨(22, 20), (23, 21)⟩, ⟨(1, 2), (9, 9)⟩, ⟨(24, 20), (25, 21)⟩]

/-- The other arrow's panel used in the C7 scenarios. -/
def scanArrow : Rect := ⟨0, 0, 10, 10⟩

/-- C7 counterexample: with the first overlapping segment at index 2 (the
*third* segment, so not "within the first two"), the claim requires the
sequence to be truncated to the first two segments, but the code's guard
`arrow_overlap > 2` keeps the whole sequence. -/
theorem truncate_first_two_counterexample :
    first_true_idx (scanLinesHitThird.map (overlaps_other_arrow [scanArrow])) = some 2 ∧
    truncate_at_arrow_overlap scanLinesHitThird [scanArrow] = scanLinesHitThird ∧
    scanLinesHitThird.take 2 ≠ scanLinesHitThird := by
  have h0 : check_overlap_sq ⟨(20, 20), (21, 21)⟩ scanArrow = 0 := by
    norm_num [check_overlap_sq, scanArrow]
  have h1 : check_overlap_sq ⟨(22, 20), (23, 21)⟩ scanArrow = 0 := by
    norm_num [check_overlap_sq, scanArrow]
  have h2 : check_overlap_sq ⟨(1, 2), (9, 9)⟩ scanArrow = 113 := by
    norm_num [check_overlap_sq, scanArrow]
  have hidx : first_true_idx (scanLinesHitThird.map (overlaps_other_arrow [scanArrow]))
      = some 2 := by
    simp [scanLinesHitThird, overlaps_other_arrow, first_true_idx, h0, h1, h2]
  refine ⟨hidx, ?_, by decide⟩
  simp [truncate_at_arrow_overlap, hidx]

/-- Four probing segments whose last one (index 3) crosses `scanArrow`. -/
def scanLinesHitFourth : List Segment :=
  [⟨(20, 20), (21, 21)⟩, ⟨(22, 20), (23, 21)⟩, ⟨(24, 20), (25, 21)⟩, ⟨(1, 2), (9, 9)⟩]

/-- C7 witness: the amended truncation statement instantiated with the
first overlap at index 3, where truncation does occur. -/
theorem truncate_at_first_arrow_overlap_amended_witness :
    (2 < 3 → truncate_at_arrow_overlap scanLinesHitFourth [scanArrow] =
      scanLinesHitFourth.take 3) ∧
    (3 ≤ 2 → truncate_at_arrow_overlap scanLinesHitFourth [scanArrow] =
      scanLinesHitFourth) := by
  refine truncate_at_first_arrow_overlap_amended scanLinesHitFourth [scanArrow] 3
    (by norm_num [scanLinesHitFourth]) ?_ ?_
  · refine ⟨scanArrow, by simp, ?_⟩
    norm_num [scanLinesHitFourth, check_overlap_sq, scanArrow]
  · intro j hj a ha
    fin_cases ha
    interval_cases j <;> norm_num [scanLinesHitFourth, check_overlap_sq, scanArrow]

/-- `np.mean` of a list of rationals: sum divided by length (the source
only applies it to nonempty lists). -/
def npMean (l : List ℚ) : ℚ := l.sum / (l.length : ℚ)

/-- `RoleProbe.__init__` (output.py:457): the scan step size,
`min([x for diag in self.diagrams for x in (diag.panel.width,
diag.panel.height)])` — Python's `min`, raising on an empty sequence. -/
def role_probe_stepsize (diagrams : List Rect) : Except PyErr ℚ :=
  pymin (diagrams.flatMap (fun d => [d.width, d.height]))

/-- `RoleProbe.__init__` (output.py:459): the probing segment length,
`np.mean([(d.panel.width + d.panel.height) / 2 for d in self.diagrams]) // 2`
— note the terminal floor-division by 2 applied to the mean. -/
def role_probe_segment_length (diagrams : List Rect) : ℚ :=
  ⌊npMean (diagrams.map (fun d => (d.width + d.height) / 2)) / 2⌋

/-- C8 counterexample: for a single 40-wide, 20-high diagram the mean
half-perimeter is 30, so the claim predicts segment length 30; the code
computes `30 // 2 = 15`.  (The step size is 20, as the claim states.) -/
theorem role_probe_params_counterexample :
    role_probe_stepsize [⟨0, 0, 20, 40⟩] = .ok 20 ∧
    npMean ([(⟨0, 0, 20, 40⟩ : Rect)].map (fun d => (d.width + d.height) / 2)) = 30 ∧
    role_probe_segment_length [⟨0, 0, 20, 40⟩] = 15 ∧ (15 : ℚ) ≠ 30 := by
  refine ⟨?_, ?_, ?_, by norm_num⟩
  · simp [role_probe_stepsize, pymin, Rect.width, Rect.height, List.flatMap]
    norm_num
  · norm_num [npMean, Rect.width, Rect.height]
  · norm_num [role_probe_segment_length, npMean, Rect.width, Rect.height]

/-- C8 (amended): for every nonempty diagram list the step size is the
minimum over all diagrams of both width and height (characterised as a
lower bound that is attained), and the probing segment length is the
*floor of half* the mean half-perimeter — the claim omitted the code's
final `// 2`. -/
theorem role_probe_params_amended (diagrams : List Rect) (h : diagrams ≠ []) :
    (∃ q, role_probe_stepsize diagrams = .ok q ∧
      (∀ d ∈ diagrams, q ≤ d.width ∧ q ≤ d.height) ∧
      (∃ d ∈ diagrams, q = d.width ∨ q = d.height)) ∧
    role_probe_segment_length diagrams =
      ⌊(diagrams.map (fun d => (d.width + d.height) / 2)).sum /
        (diagrams.length : ℚ) / 2⌋ := by
  have hflat : diagrams.flatMap (fun d => [Rect.width d, Rect.height d]) ≠ [] := by
    cases diagrams with
    | nil => exact absurd rfl h
    | cons d ds => simp [List.flatMap]
  refine ⟨⟨pyminD (diagrams.flatMap fun d => [Rect.width d, Rect.height d]),
    pymin_eq_ok hflat, ?_, ?_⟩, ?_⟩
  · intro d hd
    constructor <;> apply pyminD_le <;> rw [List.mem_flatMap] <;> exact ⟨d, hd, by simp⟩
  · have hmem := pyminD_mem _ hflat
    rw [List.mem_flatMap] at hmem
    obtain ⟨d, hd, hm⟩ := hmem
    exact ⟨d, hd, by simpa using hm⟩
  · simp [role_probe_segment_length, npMean]

/-- C8 witness: the amended parameter characterisation instantiated at two
concrete diagrams of sizes 40 × 20 and 30 × 10. -/
theorem role_probe_params_amended_witness :
    (∃ q, role_probe_stepsize [(⟨0, 0, 20, 40⟩ : Rect), ⟨0, 0, 10, 30⟩] = .ok q ∧
      (∀ d ∈ [(⟨0, 0, 20, 40⟩ : Rect), ⟨0, 0, 10, 30⟩], q ≤ d.width ∧ q ≤ d.height) ∧
      (∃ d ∈ [(⟨0, 0, 20, 40⟩ : Rect), ⟨0, 0, 10, 30⟩], q = d.width ∨ q = d.height)) ∧
    role_probe_segment_length [(⟨0, 0, 20, 40⟩ : Rect), ⟨0, 0, 10, 30⟩] =
      ⌊([(⟨0, 0, 20, 40⟩ : Rect), ⟨0, 0, 10, 30⟩].map
          (fun d => (d.width + d.height) / 2)).sum /
        (([(⟨0, 0, 20, 40⟩ : Rect), ⟨0, 0, 10, 30⟩].length : ℕ) : ℚ) / 2⌋ :=
  role_probe_params_amended [⟨0, 0, 20, 40⟩, ⟨0, 0, 10, 30⟩] (by simp)

/-- `compute_ref_group_dist` inside `RoleProbe.assign_diags`
(output.py:507-509): Python's `min` over the edge separations (squared
here) between each bounding box in the group and the arrow's reference
point — raising `ValueError` when the group is empty. -/
def compute_ref_group_dist (group : List Rect) (ref_point : ℚ × ℚ) : Except PyErr ℚ :=
  pymin (group.map (fun bbox => bbox.edge_separation_pt_sq ref_point))

/-- Total companion of `compute_ref_group_dist` for nonempty groups. -/
def groupDistSq (group : List Rect) (ref_point : ℚ × ℚ) : ℚ :=
  pyminD (group.map (fun bbox => bbox.edge_separation_pt_sq ref_point))

/-- `RoleProbe.assign_diags` (output.py:503-514), returning
`(react_group, prod_group)`.  `min(groups, key=...)` evaluates the key on
`group1` first (so an empty `group1` raises before `group2` is touched)
and keeps the first argmin on ties; `groups.remove(prod_group)` removes
the first list equal to the argmin.  Hence the result is `(group2, group1)`
when `d1 ≤ d2` and `(group1, group2)` otherwise (if `group1 = group2` the
two branches agree, so the first-equal subtlety of `remove` is immaterial). -/
def assign_diags (group1 group2 : List Rect) (ref_point : ℚ × ℚ) :
    Except PyErr (List Rect × List Rect) := do
  let d1 ← compute_ref_group_dist group1 ref_point
  let d2 ← compute_ref_group_dist group2 ref_point
  if d1 ≤ d2 then pure (group2, group1) else pure (group1, group2)

/-- The reaction step record assembled at the end of
`RoleProbe.probe_around_arrow` (output.py:497-498): reactants, products
and the single-line flag.  Diagrams are identified by their panels. -/
structure ProbeStep where
  reactants : List Rect
  products : List Rect
  single_line : Bool
deriving DecidableEq, Repr

/-- The tail of `RoleProbe.probe_around_arrow` (output.py:497-498): the
`ReactionStep` is appended only after `assign_diags` returns, so an
exception in `assign_diags` propagates and no step is recorded. -/
def probe_record_step (group1 group2 : List Rect) (ref_point : ℚ × ℚ)
    (single_line : Bool) : Except PyErr ProbeStep := do
  let rp ← assign_diags group1 group2 ref_point
  pure ⟨rp.1, rp.2, single_line⟩

/-- C2: for two nonempty candidate groups, the group whose minimum
edge-separation (squared; argmins are preserved by squaring) to the
arrow's reference point is strictly smaller is returned as the product
group (second component), and the other as the reactant group. -/
theorem assign_diags_products_closer (g1 g2 : List Rect) (ref : ℚ × ℚ)
    (h1 : g1 ≠ []) (h2 : g2 ≠ []) :
    (groupDistSq g1 ref < groupDistSq g2 ref → assign_diags g1 g2 ref = .ok (g2, g1)) ∧
    (groupDistSq g2 ref < groupDistSq g1 ref → assign_diags g1 g2 ref = .ok (g1, g2)) := by
  have e1 : compute_ref_group_dist g1 ref = .ok (groupDistSq g1 ref) :=
    pymin_eq_ok (by simpa using h1)
  have e2 : compute_ref_group_dist g2 ref = .ok (groupDistSq g2 ref) :=
    pymin_eq_ok (by simpa using h2)
  constructor <;> intro hlt
  · simp [assign_diags, e1, e2, Bind.bind, Except.bind, Pure.pure, Except.pure, hlt.le]
  · have hn : ¬ groupDistSq g1 ref ≤ groupDistSq g2 ref := not_le.2 hlt
    simp [assign_diags, e1, e2, Bind.bind, Except.bind, Pure.pure, Except.pure, hn]

/-- C2 witness: the role assignment instantiated at two singleton groups,
one containing the reference point (distance 0), the other 20 to its
right (squared distance 400): the closer group is labelled products. -/
theorem assign_diags_products_closer_witness :
    (groupDistSq [(⟨0, 0, 10, 10⟩ : Rect)] (0, 0) <
        groupDistSq [(⟨0, 20, 10, 30⟩ : Rect)] (0, 0) →
      assign_diags [(⟨0, 0, 10, 10⟩ : Rect)] [⟨0, 20, 10, 30⟩] (0, 0) =
        .ok ([⟨0, 20, 10, 30⟩], [⟨0, 0, 10, 10⟩])) ∧
    (groupDistSq [(⟨0, 20, 10, 30⟩ : Rect)] (0, 0) <
        groupDistSq [(⟨0, 0, 10, 10⟩ : Rect)] (0, 0) →
      assign_diags [(⟨0, 0, 10, 10⟩ : Rect)] [⟨0, 20, 10, 30⟩] (0, 0) =
        .ok ([⟨0, 0, 10, 10⟩], [⟨0, 20, 10, 30⟩])) :=
  assign_diags_products_closer [⟨0, 0, 10, 10⟩] [⟨0, 20, 10, 30⟩] (0, 0)
    (by simp) (by simp)

/-- C9: when one side of the scan is empty (even after the multi-line
fallback), the probe does *not* record an incomplete step: `assign_diags`
evaluates Python's `min` over an empty sequence, which raises
`ValueError`, and the exception propagates out of `probe_around_arrow`
before the `ReactionStep` is appended. -/
theorem probe_record_step_empty_group_raises (g1 g2 : List Rect) (ref : ℚ × ℚ)
    (sl : Bool) (h : g1 = [] ∨ g2 = []) :
    probe_record_step g1 g2 ref sl = .error .valueError := by
  rcases h with rfl | rfl
  · simp [probe_record_step, assign_diags, compute_ref_group_dist, pymin,
      Bind.bind, Except.bind, Pure.pure, Except.pure]
  · cases g1 with
    | nil =>
      simp [probe_record_step, assign_diags, compute_ref_group_dist, pymin,
        Bind.bind, Except.bind, Pure.pure, Except.pure]
    | cons x xs =>
      simp [probe_record_step, assign_diags, compute_ref_group_dist, pymin,
        Bind.bind, Except.bind, Pure.pure, Except.pure]

/-- C9 witness: the empty-group failure at a concrete empty reactant-side
group. -/
theorem probe_record_step_empty_group_raises_witness :
    probe_record_step [] [(⟨0, 0, 1, 1⟩ : Rect)] (0, 0) false = .error .valueError :=
  probe_record_step_empty_group_raises [] [⟨0, 0, 1, 1⟩] (0, 0) false (Or.inl rfl)

/-! ## Crops and coordinate round-trips (models/segments.py, `Crop`) -/

/-- The coordinate-transform state of a `Crop` (segments.py:700-737): the
rectangle actually cropped (after clamping to the parent bounds) and the
top/left padding recorded by `pad_crop` (`_top_padding`/`_left_padding`,
both 0 until `pad_crop` runs). -/
structure CropS where
  cropped_rect : Rect
  top_padding : ℚ
  left_padding : ℚ
deriving DecidableEq, Repr

/-- `Crop._crop_main_figure` (segments.py:777-807): the crop parameters
are clamped to the parent image's bounds.  Python's `left if left else 0`
treats the coordinate 0 as falsy (the fallback is the same 0); note that
the source's default for a falsy `bottom` is `width`, which the embedding
keeps.  Padding starts at 0. -/
def crop_main_figure (height width : ℚ) (crop_params : Rect) : CropS :=
  let left := max 0 (if crop_params.left ≠ 0 then crop_params.left else 0)
  let right := min width (if crop_params.right ≠ 0 then crop_params.right else width)
  let top := max 0 (if crop_params.top ≠ 0 then crop_params.top else 0)
  let bottom := min height (if crop_params.bottom ≠ 0 then crop_params.bottom else width)
  { cropped_rect := ⟨top, left, bottom, right⟩, top_padding := 0, left_padding := 0 }

/-- `Crop.pad_crop` (segments.py:720-737) with an integer `pad_width`:
records the padding (`_top_padding = _left_padding = pad_width`).  The
effect on the crop's connected components is `pad_crop_component`. -/
def pad_crop (c : CropS) (pad_width : ℚ) : CropS :=
  { c with top_padding := pad_width, left_padding := pad_width }

/-- A shift of a component's box by a top and a left offset. -/
def pad_shift (top_padding left_padding : ℚ) (cc : Rect) : Rect :=
  ⟨cc.top + top_padding, cc.left + left_padding,
    cc.bottom + top_padding, cc.right + left_padding⟩

/-- What `pad_crop` does to a connected component whose *unpadded* in-crop
box is `cc`.  The method's first statement, `self.img = np.pad(self.img,
pad_width)`, runs the `Figure.img` setter (segments.py:638-644); since
`self._img` is already set (the crop was constructed), the setter calls
`set_connected_components()`, recomputing the crop's components from the
*padded* image — where the pixel content already sits shifted by the
padding, so the component is re-detected at `pad_shift p p cc`.  The
explicit loop that follows (segments.py:733-735) then shifts these freshly
recomputed components by the padding *again*: the component ends up at
`+2p`, not `+p`. -/
def pad_crop_component (pad_width : ℚ) (cc : Rect) : Rect :=
  pad_shift pad_width pad_width (pad_shift pad_width pad_width cc)

/-- `Crop.in_crop` (segments.py:760-775): parent-frame coordinates of a
connected component mapped into the crop frame.  For a component lying
inside the cropped rectangle this is exactly where the crop's own
labelling finds it. -/
def in_crop (c : CropS) (cc : Rect) : Rect :=
  let new_top := cc.top - c.cropped_rect.top
  let new_bottom := new_top + cc.height
  let new_left := cc.left - c.cropped_rect.left
  let new_right := new_left + cc.width
  ⟨new_top, new_left, new_bottom, new_right⟩

/-- `Crop.in_main_fig` (segments.py:739-758), the `Panel` branch: maps a
component of the (possibly padded) crop back into the parent frame.  Note
the source subtracts the padding *again* on the bottom and right lines
(`new_bottom = new_top + element.height - self._top_padding`). -/
def in_main_fig (c : CropS) (element : Rect) : Rect :=
  let new_top := element.top + c.cropped_rect.top - c.top_padding
  let new_bottom := new_top + element.height - c.top_padding
  let new_left := element.left + c.cropped_rect.left - c.left_padding
  let new_right := new_left + element.width - c.left_padding
  ⟨new_top, new_left, new_bottom, new_right⟩

/-- C3: the pad-then-map-back round trip does *not* return the original
parent coordinates.  For every crop of a parent surface, every padding
width `p` and every component with parent box `cc`, mapping the padded
crop's component (at `+2p` after the setter-triggered recomputation plus
the explicit loop, see `pad_crop_component`) back through `in_main_fig`
yields `(top + p, left + p, bottom, right)`: `in_main_fig` removes one
padding from the top/left offsets — leaving the recomputation's extra `p`
in place — and its bottom/right lines subtract the padding once more from
the height/width, which happens to cancel the surplus there.  Top and left
are over by the padding; only bottom and right come back exact. -/
theorem in_main_fig_after_pad_bug (height width : ℚ) (params : Rect) (p : ℚ)
    (cc : Rect) :
    in_main_fig (pad_crop (crop_main_figure height width params) p)
      (pad_crop_component p (in_crop (crop_main_figure height width params) cc)) =
    ⟨cc.top + p, cc.left + p, cc.bottom, cc.right⟩ := by
  simp only [in_main_fig, pad_crop, pad_crop_component, pad_shift, in_crop,
    crop_main_figure, Rect.height, Rect.width, Rect.mk.injEq]
  refine ⟨by ring, by ring, by ring, by ring⟩

/-- C3 at the failing input: a 20 × 20 crop of a 20 × 20 surface padded by
2 maps the component with parent box (5,5,8,9) back to (7,7,8,9) — top and
left are over by the padding. -/
theorem in_main_fig_after_pad_bug_concrete :
    in_main_fig (pad_crop (crop_main_figure 20 20 ⟨0, 0, 20, 20⟩) 2)
      (pad_crop_component 2
        (in_crop (crop_main_figure 20 20 ⟨0, 0, 20, 20⟩) ⟨5, 5, 8, 9⟩)) =
      ⟨7, 7, 8, 9⟩ ∧ (⟨7, 7, 8, 9⟩ : Rect) ≠ ⟨5, 5, 8, 9⟩ := by
  constructor
  · rw [in_main_fig_after_pad_bug]
    norm_num
  · intro h
    have := congrArg Rect.top h
    norm_num at this


/-! ## Insertion-ordered dictionaries (Python `dict`) -/

section AList

variable {κ β : Type} [DecidableEq κ]

/-- Lookup in an insertion-ordered association list (a Python dict). -/
def alist_lookup (l : List (κ × β)) (k : κ) : Option β :=
  (l.find? (fun p => decide (p.1 = k))).map Prod.snd

/-- In-place value update of a Python dict entry (`d[k] = v` for a present
key `k`): the entry keeps its position. -/
def alist_update (l : List (κ × β)) (k : κ) (v : β) : List (κ × β) :=
  l.map (fun p => if p.1 = k then (k, v) else p)

lemma alist_lookup_nil (k : κ) : alist_lookup ([] : List (κ × β)) k = none := rfl

lemma alist_lookup_cons (k' : κ) (v : β) (l : List (κ × β)) (k : κ) :
    alist_lookup ((k', v) :: l) k = if k' = k then some v else alist_lookup l k := by
  by_cases h : k' = k <;> simp [alist_lookup, List.find?, h]

lemma alist_update_cons (k' : κ) (v' : β) (l : List (κ × β)) (k : κ) (v : β) :
    alist_update ((k', v') :: l) k v =
      (if k' = k then (k, v) else (k', v')) :: alist_update l k v := by
  simp [alist_update]

lemma alist_lookup_append (l1 l2 : List (κ × β)) (k : κ) :
    alist_lookup (l1 ++ l2) k =
      match alist_lookup l1 k with
      | some v => some v
      | none => alist_lookup l2 k := by
  induction l1 with
  | nil => simp [alist_lookup_nil]
  | cons p l ih =>
    obtain ⟨k', v⟩ := p
    by_cases h : k' = k <;> simp [alist_lookup_cons, h, ih]

lemma alist_lookup_eq_none_iff (l : List (κ × β)) (k : κ) :
    alist_lookup l k = none ↔ k ∉ l.map Prod.fst := by
  induction l with
  | nil => simp [alist_lookup_nil]
  | cons p l ih =>
    obtain ⟨k', v⟩ := p
    rw [alist_lookup_cons]
    by_cases h : k' = k
    · subst h
      simp
    · have hne : ¬ k = k' := fun heq => h heq.symm
      simp [h, ih, hne]

lemma alist_lookup_isSome_iff (l : List (κ × β)) (k : κ) :
    (alist_lookup l k).isSome ↔ k ∈ l.map Prod.fst := by
  rw [← not_iff_not, ← alist_lookup_eq_none_iff (l := l) (k := k)]
  cases alist_lookup l k <;> simp

lemma alist_update_keys (l : List (κ × β)) (k : κ) (v : β) :
    (alist_update l k v).map Prod.fst = l.map Prod.fst := by
  induction l with
  | nil => rfl
  | cons p l ih =>
    obtain ⟨k', v'⟩ := p
    rw [alist_update_cons]
    by_cases h : k' = k
    · rw [if_pos h]
      simpa [h] using ih
    · rw [if_neg h]
      simpa using ih

lemma alist_lookup_update_self (l : List (κ × β)) (k : κ) (v : β)
    (h : k ∈ l.map Prod.fst) : alist_lookup (alist_update l k v) k = some v := by
  induction l with
  | nil => simp at h
  | cons p l ih =>
    obtain ⟨k', v'⟩ := p
    rw [alist_update_cons]
    by_cases hk : k' = k
    · rw [if_pos hk, alist_lookup_cons, if_pos rfl]
    · rw [if_neg hk, alist_lookup_cons, if_neg hk]
      apply ih
      simp only [List.map_cons, List.mem_cons] at h
      rcases h with h | h
      · exact absurd h.symm hk
      · exact h

lemma alist_lookup_update_ne (l : List (κ × β)) (k j : κ) (v : β) (h : j ≠ k) :
    alist_lookup (alist_update l k v) j = alist_lookup l j := by
  induction l with
  | nil => rfl
  | cons p l ih =>
    obtain ⟨k', v'⟩ := p
    rw [alist_update_cons]
    by_cases hk : k' = k
    · subst hk
      have hne : ¬ k' = j := fun heq => h heq.symm
      rw [if_pos rfl, alist_lookup_cons, if_neg hne, alist_lookup_cons, if_neg hne]
      exact ih
    · rw [if_neg hk, alist_lookup_cons, alist_lookup_cons]
      by_cases hj : k' = j
      · rw [if_pos hj, if_pos hj]
      · rw [if_neg hj, if_neg hj]
        exact ih

end AList


/-! ## The scheme graph (models/output.py, `Graph` / `ReactionScheme`) -/

section SchemeGraph

variable {α : Type} [DecidableEq α]

/-- One reaction step as `create_graph` consumes it: iterating a
`ReactionStep` yields its reactant and product groups (lists of `Diagram`s,
see reaction.py:186-187), and `step.conditions` is the list of `Conditions`
objects attached to the step's arrow (`arrow.children`).  The graph code
only ever hashes and compares these elements, so the element type `α` is
kept abstract with decidable equality. -/
structure SchemeStep (α : Type) where
  reactants : List α
  products : List α
  conditions : List α

/-- The state `Graph.__init__` sets up (output.py:47-50): `nodes` maps
each `frozenset` node value to its integer id (a Python dict, so
insertion-ordered), `adjacency` maps node ids to successor-id lists, and
`_node_idx` is the next id to assign. -/
structure PyGraph (α : Type) where
  nodes : List (Finset α × ℕ)
  adjacency : List (ℕ × List ℕ)
  node_idx : ℕ

/-- The freshly initialised graph (output.py:47-50). -/
def empty_graph : PyGraph α := ⟨[], [], 0⟩

/-- `Graph.add_node` (output.py:74-77): register `frozenset(node)` under a
fresh id unless it is already a key. -/
def add_node (g : PyGraph α) (node : List α) : PyGraph α :=
  if (alist_lookup g.nodes node.toFinset).isSome then g
  else { g with nodes := g.nodes ++ [(node.toFinset, g.node_idx)],
                node_idx := g.node_idx + 1 }

/-- `ReactionScheme._generate_edge` (output.py:131-138): look both
frozensets up in `nodes` (a missing key raises `KeyError`), then append the
successor id to `adjacency[key]` if that entry exists and is truthy (a
nonempty list), and otherwise assign `adjacency[key] = [successor]` —
in-place for a present key, inserting at the end otherwise. -/
def generate_edge (g : PyGraph α) (key successor : List α) :
    Except PyErr (PyGraph α) :=
  match alist_lookup g.nodes key.toFinset, alist_lookup g.nodes successor.toFinset with
  | some k, some s =>
    match alist_lookup g.adjacency k with
    | some (v :: vs) =>
        .ok { g with adjacency := alist_update g.adjacency k ((v :: vs) ++ [s]) }
    | some [] => .ok { g with adjacency := alist_update g.adjacency k [s] }
    | none => .ok { g with adjacency := g.adjacency ++ [(k, [s])] }
  | _, _ => .error .keyError

/-- The body of `create_graph`'s first loop (output.py:231-233):
`add_node` for each species group in iteration order (reactants, then
products), then for the conditions. -/
def add_step_nodes (g : PyGraph α) (step : SchemeStep α) : PyGraph α :=
  add_node (add_node (add_node g step.reactants) step.products) step.conditions

/-- The body of `create_graph`'s second loop (output.py:235-237): the
edges reactants → conditions and conditions → products. -/
def add_step_edges (g : PyGraph α) (step : SchemeStep α) : Except PyErr (PyGraph α) := do
  let g ← generate_edge g step.reactants step.conditions
  generate_edge g step.conditions step.products

/-- `ReactionScheme.create_graph` (output.py:225-237): all nodes are
registered first, then the edges are generated step by step. -/
def create_graph (steps : List (SchemeStep α)) : Except PyErr (PyGraph α) :=
  steps.foldlM add_step_edges (steps.foldl add_step_nodes empty_graph)

/-- The id registered for a group (default 0 is never used when the group
was added). -/
def nid (nodes : List (Finset α × ℕ)) (grp : List α) : ℕ :=
  (alist_lookup nodes grp.toFinset).getD 0

/-- Every node value occurring in a step list. -/
def step_node_values (steps : List (SchemeStep α)) : List (Finset α) :=
  steps.flatMap
    (fun s => [s.reactants.toFinset, s.products.toFinset, s.conditions.toFinset])

/-- The edges of a step list in step order, as id pairs:
reactants → conditions and conditions → products for each step. -/
def step_edges (nodes : List (Finset α × ℕ)) (steps : List (SchemeStep α)) :
    List (ℕ × ℕ) :=
  steps.flatMap (fun s =>
    [(nid nodes s.reactants, nid nodes s.conditions),
     (nid nodes s.conditions, nid nodes s.products)])

/-- The successors of source `j` in an edge list, kept in order. -/
def succ_of (edges : List (ℕ × ℕ)) (j : ℕ) : List ℕ :=
  edges.filterMap (fun e => if e.1 = j then some e.2 else none)

/-- A dict entry holding successor list `L`: absent when `L` is empty
(`_generate_edge` only ever inserts nonempty lists). -/
def opt_of (L : List ℕ) : Option (List ℕ) := if L = [] then none else some L

/-- Node-registry invariant: distinct keys, distinct ids, ids below the
running counter. -/
def NInv (g : PyGraph α) : Prop :=
  (g.nodes.map Prod.fst).Nodup ∧ (g.nodes.map Prod.snd).Nodup ∧
    ∀ p ∈ g.nodes, p.2 < g.node_idx

omit [DecidableEq α] in
lemma NInv_empty : NInv (empty_graph : PyGraph α) := by
  refine ⟨List.nodup_nil, List.nodup_nil, ?_⟩
  intro p hp
  cases hp

lemma add_node_nodes_eq_or (g : PyGraph α) (l : List α) :
    (add_node g l).nodes = g.nodes ∨
      (add_node g l).nodes = g.nodes ++ [(l.toFinset, g.node_idx)] := by
  unfold add_node
  split_ifs <;> simp

lemma add_node_NInv (g : PyGraph α) (l : List α) (h : NInv g) : NInv (add_node g l) := by
  obtain ⟨hk, hi, hb⟩ := h
  unfold add_node
  split_ifs with hmem
  · exact ⟨hk, hi, hb⟩
  · rw [Option.not_isSome_iff_eq_none, alist_lookup_eq_none_iff] at hmem
    refine ⟨?_, ?_, ?_⟩
    · simpa [List.nodup_append, hk] using hmem
    · have : g.node_idx ∉ g.nodes.map Prod.snd := by
        intro hc
        rw [List.mem_map] at hc
        obtain ⟨p, hp, hpe⟩ := hc
        exact absurd (hpe ▸ hb p hp) (lt_irrefl _)
      simpa [List.nodup_append, hi] using this
    · intro p hp
      rcases List.mem_append.1 hp with hp | hp
      · exact (hb p hp).trans (Nat.lt_succ_self _)
      · simp at hp
        rw [hp]
        exact Nat.lt_succ_self _

lemma add_node_keys_mem (g : PyGraph α) (l : List α) (v : Finset α) :
    v ∈ (add_node g l).nodes.map Prod.fst ↔
      v ∈ g.nodes.map Prod.fst ∨ v = l.toFinset := by
  unfold add_node
  split_ifs with hmem
  · rw [alist_lookup_isSome_iff] at hmem
    constructor
    · exact Or.inl
    · rintro (h | rfl)
      · exact h
      · exact hmem
  · simp

lemma add_step_nodes_NInv (g : PyGraph α) (s : SchemeStep α) (h : NInv g) :
    NInv (add_step_nodes g s) :=
  add_node_NInv _ _ (add_node_NInv _ _ (add_node_NInv _ _ h))

lemma add_step_nodes_keys_mem (g : PyGraph α) (s : SchemeStep α) (v : Finset α) :
    v ∈ (add_step_nodes g s).nodes.map Prod.fst ↔
      v ∈ g.nodes.map Prod.fst ∨
        (v = s.reactants.toFinset ∨ v = s.products.toFinset ∨ v = s.conditions.toFinset) := by
  unfold add_step_nodes
  rw [add_node_keys_mem, add_node_keys_mem, add_node_keys_mem]
  tauto

lemma foldl_add_step_nodes_NInv (steps : List (SchemeStep α)) (g : PyGraph α)
    (h : NInv g) : NInv (steps.foldl add_step_nodes g) := by
  induction steps generalizing g with
  | nil => exact h
  | cons s rest ih => exact ih _ (add_step_nodes_NInv g s h)

lemma step_node_values_cons (s : SchemeStep α) (rest : List (SchemeStep α)) :
    step_node_values (s :: rest) =
      [s.reactants.toFinset, s.products.toFinset, s.conditions.toFinset] ++
        step_node_values rest := by
  simp [step_node_values]

lemma foldl_add_step_nodes_keys_mem (steps : List (SchemeStep α)) (g : PyGraph α)
    (v : Finset α) :
    v ∈ (steps.foldl add_step_nodes g).nodes.map Prod.fst ↔
      v ∈ g.nodes.map Prod.fst ∨ v ∈ step_node_values steps := by
  induction steps generalizing g with
  | nil => simp [step_node_values]
  | cons s rest ih =>
    rw [List.foldl_cons, ih, add_step_nodes_keys_mem, step_node_values_cons,
      List.mem_append]
    simp only [List.mem_cons, List.not_mem_nil, or_false]
    tauto


/-- The adjacency dict holds, for every node id, exactly the successors of
the edges generated so far, in generation order. -/
def adj_matches (adj : List (ℕ × List ℕ)) (edges : List (ℕ × ℕ)) : Prop :=
  ∀ j, alist_lookup adj j = opt_of (succ_of edges j)

lemma succ_of_append_one (es : List (ℕ × ℕ)) (e : ℕ × ℕ) (j : ℕ) :
    succ_of (es ++ [e]) j = succ_of es j ++ (if e.1 = j then [e.2] else []) := by
  rw [succ_of, List.filterMap_append]
  congr 1
  by_cases h : e.1 = j <;> simp [succ_of, h]

lemma opt_of_append_getD (L : List ℕ) (x : ℕ) :
    opt_of (L ++ [x]) = some (((opt_of L).getD []) ++ [x]) := by
  cases L <;> simp [opt_of]

lemma generate_edge_ok (g : PyGraph α) (key succ : List α) (xk xs : ℕ)
    (hk : alist_lookup g.nodes key.toFinset = some xk)
    (hs : alist_lookup g.nodes succ.toFinset = some xs) :
    ∃ g', generate_edge g key succ = .ok g' ∧ g'.nodes = g.nodes ∧
      g'.node_idx = g.node_idx ∧
      ∀ j, alist_lookup g'.adjacency j =
        if j = xk then some ((alist_lookup g.adjacency xk).getD [] ++ [xs])
        else alist_lookup g.adjacency j := by
  cases hv : alist_lookup g.adjacency xk with
  | none =>
    refine ⟨{ g with adjacency := g.adjacency ++ [(xk, [xs])] }, ?_, rfl, rfl, ?_⟩
    · simp only [generate_edge, hk, hs, hv]
    · intro j
      show alist_lookup (g.adjacency ++ [(xk, [xs])]) j = _
      rw [alist_lookup_append]
      by_cases hj : j = xk
      · subst hj
        rw [hv, if_pos rfl, alist_lookup_cons, if_pos rfl]
        rfl
      · rw [if_neg hj]
        have hxj : ¬ xk = j := fun h => hj h.symm
        cases hcur : alist_lookup g.adjacency j with
        | none => simp [hcur, alist_lookup_cons, hxj, alist_lookup_nil]
        | some v => simp [hcur]
  | some vs =>
    have hin : xk ∈ g.adjacency.map Prod.fst := by
      rw [← alist_lookup_isSome_iff, hv]
      rfl
    cases vs with
    | nil =>
      refine ⟨{ g with adjacency := alist_update g.adjacency xk [xs] }, ?_, rfl, rfl, ?_⟩
      · simp only [generate_edge, hk, hs, hv]
      · intro j
        show alist_lookup (alist_update g.adjacency xk [xs]) j = _
        by_cases hj : j = xk
        · subst hj
          rw [if_pos rfl, alist_lookup_update_self _ _ _ hin]
          rfl
        · rw [if_neg hj, alist_lookup_update_ne _ _ _ _ hj]
    | cons v vs =>
      refine ⟨{ g with adjacency := alist_update g.adjacency xk ((v :: vs) ++ [xs]) },
        ?_, rfl, rfl, ?_⟩
      · simp only [generate_edge, hk, hs, hv]
      · intro j
        show alist_lookup (alist_update g.adjacency xk ((v :: vs) ++ [xs])) j = _
        by_cases hj : j = xk
        · subst hj
          rw [if_pos rfl, alist_lookup_update_self _ _ _ hin]
          rfl
        · rw [if_neg hj, alist_lookup_update_ne _ _ _ _ hj]

omit [DecidableEq α] in
lemma adj_matches_step (g g' : PyGraph α) (es : List (ℕ × ℕ)) (xk xs : ℕ)
    (hm : adj_matches g.adjacency es)
    (hupd : ∀ j, alist_lookup g'.adjacency j =
      if j = xk then some ((alist_lookup g.adjacency xk).getD [] ++ [xs])
      else alist_lookup g.adjacency j) :
    adj_matches g'.adjacency (es ++ [(xk, xs)]) := by
  intro j
  rw [hupd j, succ_of_append_one]
  by_cases hj : j = xk
  · subst hj
    rw [if_pos rfl, if_pos rfl, hm j, opt_of_append_getD]
  · rw [if_neg hj, if_neg (fun h : xk = j => hj h.symm), List.append_nil, hm j]

lemma foldlM_add_step_edges (steps : List (SchemeStep α)) :
    ∀ (g : PyGraph α) (es : List (ℕ × ℕ)),
      (∀ s ∈ steps, (alist_lookup g.nodes s.reactants.toFinset).isSome ∧
        (alist_lookup g.nodes s.conditions.toFinset).isSome ∧
        (alist_lookup g.nodes s.products.toFinset).isSome) →
      adj_matches g.adjacency es →
      ∃ g', steps.foldlM add_step_edges g = .ok g' ∧ g'.nodes = g.nodes ∧
        g'.node_idx = g.node_idx ∧
        adj_matches g'.adjacency (es ++ step_edges g.nodes steps) := by
  induction steps with
  | nil =>
    intro g es _ hm
    exact ⟨g, rfl, rfl, rfl, by simpa [step_edges] using hm⟩
  | cons s rest ih =>
    intro g es hpres hm
    obtain ⟨hr, hc, hp⟩ := hpres s (List.mem_cons_self _ _)
    obtain ⟨xr, hxr⟩ := Option.isSome_iff_exists.1 hr
    obtain ⟨xc, hxc⟩ := Option.isSome_iff_exists.1 hc
    obtain ⟨xp, hxp⟩ := Option.isSome_iff_exists.1 hp
    obtain ⟨g1, hg1, hn1, hi1, hadj1⟩ :=
      generate_edge_ok g s.reactants s.conditions xr xc hxr hxc
    have hm1 : adj_matches g1.adjacency (es ++ [(xr, xc)]) :=
      adj_matches_step g g1 es xr xc hm hadj1
    obtain ⟨g2, hg2, hn2, hi2, hadj2⟩ :=
      generate_edge_ok g1 s.conditions s.products xc xp
        (by rw [hn1]; exact hxc) (by rw [hn1]; exact hxp)
    have hm2 : adj_matches g2.adjacency ((es ++ [(xr, xc)]) ++ [(xc, xp)]) :=
      adj_matches_step g1 g2 _ xc xp hm1 hadj2
    obtain ⟨g3, hg3, hn3, hi3, hm3⟩ :=
      ih g2 ((es ++ [(xr, xc)]) ++ [(xc, xp)])
        (fun t ht => by rw [hn2, hn1]; exact hpres t (List.mem_cons_of_mem _ ht)) hm2
    have hstep : add_step_edges g s = .ok g2 := by
      rw [add_step_edges]
      rw [hg1]
      simpa using hg2
    refine ⟨g3, ?_, by rw [hn3, hn2, hn1], by rw [hi3, hi2, hi1], ?_⟩
    · rw [List.foldlM_cons, hstep]
      simpa using hg3
    · have hse : step_edges g.nodes (s :: rest) =
          [(xr, xc), (xc, xp)] ++ step_edges g.nodes rest := by
        simp [step_edges, nid, hxr, hxc, hxp]
      rw [hn2, hn1] at hm3
      rw [hse]
      simpa [List.append_assoc] using hm3

lemma add_node_adjacency (g : PyGraph α) (l : List α) :
    (add_node g l).adjacency = g.adjacency := by
  unfold add_node
  split_ifs <;> rfl

lemma foldl_add_step_nodes_adjacency (steps : List (SchemeStep α)) (g : PyGraph α) :
    (steps.foldl add_step_nodes g).adjacency = g.adjacency := by
  induction steps generalizing g with
  | nil => rfl
  | cons s rest ih =>
    rw [List.foldl_cons, ih]
    show (add_node (add_node (add_node g s.reactants) s.products) s.conditions).adjacency
      = g.adjacency
    rw [add_node_adjacency, add_node_adjacency, add_node_adjacency]

/-- C1: `create_graph` succeeds on every ordered step list and builds a
graph in which (i) each distinct group-or-conditions value (as a frozenset)
is registered exactly once, under a unique integer id, (ii) two groups with
equal set content get the same id, and (iii) for each step, in step order,
the edges reactant-group → conditions and conditions → product-group are
added to the adjacency: every id's successor list is exactly the ordered
list of targets of the step-order edges leaving it. -/
theorem create_graph_correct (steps : List (SchemeStep α)) :
    ∃ g, create_graph steps = .ok g ∧
      (g.nodes.map Prod.fst).Nodup ∧
      (g.nodes.map Prod.snd).Nodup ∧
      (∀ v, v ∈ g.nodes.map Prod.fst ↔ v ∈ step_node_values steps) ∧
      (∀ l1 l2 : List α, l1.toFinset = l2.toFinset →
        nid g.nodes l1 = nid g.nodes l2) ∧
      (∀ j, alist_lookup g.adjacency j =
        opt_of (succ_of (step_edges g.nodes steps) j)) := by
  have hInv : NInv (steps.foldl add_step_nodes (empty_graph : PyGraph α)) :=
    foldl_add_step_nodes_NInv steps empty_graph NInv_empty
  have hkeys : ∀ v, v ∈ (steps.foldl add_step_nodes
      (empty_graph : PyGraph α)).nodes.map Prod.fst ↔ v ∈ step_node_values steps := by
    intro v
    rw [foldl_add_step_nodes_keys_mem]
    simp [empty_graph]
  have hpres : ∀ s ∈ steps,
      (alist_lookup (steps.foldl add_step_nodes
        (empty_graph : PyGraph α)).nodes s.reactants.toFinset).isSome ∧
      (alist_lookup (steps.foldl add_step_nodes
        (empty_graph : PyGraph α)).nodes s.conditions.toFinset).isSome ∧
      (alist_lookup (steps.foldl add_step_nodes
        (empty_graph : PyGraph α)).nodes s.products.toFinset).isSome := by
    intro s hs
    refine ⟨?_, ?_, ?_⟩ <;> rw [alist_lookup_isSome_iff] <;> rw [hkeys] <;>
      exact List.mem_flatMap.2 ⟨s, hs, by simp [step_node_values]⟩
  have hadj0 : adj_matches (steps.foldl add_step_nodes
      (empty_graph : PyGraph α)).adjacency [] := by
    intro j
    rw [foldl_add_step_nodes_adjacency]
    simp [empty_graph, alist_lookup_nil, succ_of, opt_of]
  obtain ⟨g', hfold, hn, hi, hm⟩ :=
    foldlM_add_step_edges steps (steps.foldl add_step_nodes empty_graph) [] hpres hadj0
  refine ⟨g', hfold, ?_, ?_, ?_, ?_, ?_⟩
  · rw [hn]; exact hInv.1
  · rw [hn]; exact hInv.2.1
  · intro v; rw [hn]; exact hkeys v
  · intro l1 l2 h; simp [nid, h]
  · intro j
    rw [hn]
    simpa using hm j


/-! ## `ReactionScheme.__init__` and `to_smirks` (models/output.py) -/

/-- What a completed `to_smirks` call can hand back: the `NotImplemented`
constant (which the source *returns*, rather than raising, for a
multi-path graph) or a SMIRKS string. -/
inductive ToSmirksResult where
  | notImplemented
  | smirks (s : String)
deriving DecidableEq, Repr

/-- The attributes a `ReactionScheme` instance owns after `__init__`
(output.py:110-122): the graph built by `create_graph`, the step list and
`_start = None`.  `single_path : Option Bool` is `none` because the line
assigning `self._single_path` (output.py:122) is commented out and no
other code sets it — reading it raises `AttributeError`.  Similarly
`self._graph_dict` is read in several methods but never assigned anywhere
in the class hierarchy; `graph_dict_attr` models those reads. -/
structure SchemeState (α : Type) where
  graph : PyGraph α
  reaction_steps : List (SchemeStep α)
  start : Option (List (List α))
  single_path : Option Bool

/-- `ReactionScheme.__init__` (output.py:110-122): build the graph from
the steps, set `_start`/`_end` to `None`; `_single_path` is left unset. -/
def reaction_scheme_init (steps : List (SchemeStep α)) :
    Except PyErr (SchemeState α) := do
  let g ← create_graph steps
  pure { graph := g, reaction_steps := steps, start := none, single_path := none }

/-- Every read of `self._graph_dict` raises `AttributeError`: the
attribute is never assigned in the source (its only occurrences are reads
in `find_isolated_vertices`, `find_path` and `to_smirks`).  Node values of
this phantom dict are modelled as lists since the iteration order of a
`frozenset` is unspecified. -/
def graph_dict_attr (α : Type) :
    Except PyErr (List (List α × List (List α))) :=
  .error .attributeError

/-- The `species_str` computation of `to_smirks` (output.py:354-362).
Every node `create_graph` makes is a frozenset, hence iterable, so the
`hasattr(node, '__iter__')` test always takes the join-of-`smiles` branch;
an element without a `smiles` attribute (e.g. a `Conditions` object inside
a conditions node) raises `AttributeError`, modelled by `smiles` returning
`none`. -/
def node_species_str (smiles : α → Option String) (node : List α) :
    Except PyErr String := do
  let strs ← node.mapM (fun x =>
    match smiles x with
    | some s => Except.ok s
    | none => Except.error PyErr.attributeError)
  pure (String.intercalate "." strs)

/-- The traversal of `to_smirks` (output.py:352-371): accumulate one
species string per node, follow `successors[0]`, and join with `'>'` at a
sink.  Python recursion is bounded by the interpreter's recursion limit,
modelled by explicit fuel (`RecursionError` when exhausted; on the cycle-free
dictionaries relevant here, fuel `graph.length + 1` suffices).
`graph[node]` on a missing key raises `KeyError`. -/
def to_smirks_rec (smiles : α → Option String)
    (graph : List (List α × List (List α))) :
    ℕ → List α → List String → Except PyErr ToSmirksResult
  | 0, _, _ => .error .recursionError
  | fuel + 1, node, species_strings => do
    let s ← node_species_str smiles node
    let species_strings := species_strings ++ [s]
    match alist_lookup graph node with
    | none => .error .keyError
    | some successors =>
      match successors with
      | [] => .ok (.smirks (String.intercalate ">" species_strings))
      | succ :: _ => to_smirks_rec smiles graph fuel succ species_strings

/-- `ReactionScheme.to_smirks` (output.py:332-371): first reads
`self._single_path` (unset after `__init__` → `AttributeError`); were it
set and falsy, the function *returns* the `NotImplemented` constant; were
it truthy, the very next statement reads the never-assigned
`self._graph_dict`, and `self._start[0]` with `_start = None` would raise
`TypeError`. -/
def to_smirks (rs : SchemeState α) (smiles : α → Option String) :
    Except PyErr ToSmirksResult :=
  match rs.single_path with
  | none => .error .attributeError
  | some sp =>
    if !sp then .ok .notImplemented
    else do
      let graph ← graph_dict_attr α
      let start_key ← (match rs.start with
        | none => .error PyErr.typeError
        | some [] => .error PyErr.indexError
        | some (k :: _) => .ok k)
      to_smirks_rec smiles graph (graph.length + 1) start_key []

/-- C4: the single-path export can never run: on every scheme built by
`ReactionScheme.__init__`, `to_smirks` raises `AttributeError` at its
first statement because `self._single_path` is never assigned — so neither
the claimed unsupported-operation signal for multi-path graphs nor the
delimiter-joined string for one-source/one-sink graphs is produced.
Moreover, even on a state with `_single_path` set to a falsy value, the
code *returns* the `NotImplemented` constant instead of raising. -/
theorem to_smirks_always_attribute_error (steps : List (SchemeStep α))
    (smiles : α → Option String) :
    (∀ rs, reaction_scheme_init steps = .ok rs →
      to_smirks rs smiles = .error .attributeError) ∧
    (∀ rs : SchemeState α, rs.single_path = some false →
      to_smirks rs smiles = .ok .notImplemented) := by
  constructor
  · intro rs hrs
    cases hg : create_graph steps with
    | error e =>
      rw [reaction_scheme_init, hg] at hrs
      simp [Bind.bind, Except.bind] at hrs
    | ok g =>
      rw [reaction_scheme_init, hg] at hrs
      simp only [Bind.bind, Except.bind, Pure.pure, Except.pure, Except.ok.injEq] at hrs
      rw [← hrs]
      rfl
  · intro rs hsp
    simp [to_smirks, hsp]

lemma create_graph_exists_ok (steps : List (SchemeStep α)) :
    ∃ g, create_graph steps = .ok g := by
  have hkeys : ∀ v, v ∈ (steps.foldl add_step_nodes
      (empty_graph : PyGraph α)).nodes.map Prod.fst ↔ v ∈ step_node_values steps := by
    intro v
    rw [foldl_add_step_nodes_keys_mem]
    simp [empty_graph]
  have hpres : ∀ s ∈ steps,
      (alist_lookup (steps.foldl add_step_nodes
        (empty_graph : PyGraph α)).nodes s.reactants.toFinset).isSome ∧
      (alist_lookup (steps.foldl add_step_nodes
        (empty_graph : PyGraph α)).nodes s.conditions.toFinset).isSome ∧
      (alist_lookup (steps.foldl add_step_nodes
        (empty_graph : PyGraph α)).nodes s.products.toFinset).isSome := by
    intro s hs
    refine ⟨?_, ?_, ?_⟩ <;> rw [alist_lookup_isSome_iff] <;> rw [hkeys] <;>
      exact List.mem_flatMap.2 ⟨s, hs, by simp [step_node_values]⟩
  have hadj0 : adj_matches (steps.foldl add_step_nodes
      (empty_graph : PyGraph α)).adjacency [] := by
    intro j
    rw [foldl_add_step_nodes_adjacency]
    simp [empty_graph, alist_lookup_nil, succ_of, opt_of]
  obtain ⟨g', hfold, -, -, -⟩ :=
    foldlM_add_step_edges steps (steps.foldl add_step_nodes empty_graph) [] hpres hadj0
  exact ⟨g', hfold⟩

/-- C4 at the failing input: a one-step scheme (a linear chain with a
single source and a single sink — the case the claim says must yield a
string) is constructed successfully, and `to_smirks` on it raises
`AttributeError`. -/
theorem to_smirks_attribute_error_concrete :
    ∃ rs, reaction_scheme_init [(⟨[0], [1], [2]⟩ : SchemeStep ℕ)] = .ok rs ∧
      to_smirks rs (fun _ => some "C") = .error .attributeError := by
  obtain ⟨g, hg⟩ := create_graph_exists_ok [(⟨[0], [1], [2]⟩ : SchemeStep ℕ)]
  refine ⟨⟨g, [(⟨[0], [1], [2]⟩ : SchemeStep ℕ)], none, none⟩, ?_, rfl⟩
  rw [reaction_scheme_init, hg]
  rfl

end SchemeGraph

end RDE
